import Mathlib

set_option autoImplicit false

/-
Verification of the kraken2-rust classification core (kr2r crate).

Modelling conventions:
* Machine integers (u32/u64/usize) are modelled as `Nat`, with explicit
  `% 2 ^ w`, `/ 2 ^ w` or mask arithmetic at the points where the source
  truncates or splits words.  `i32` quantities that the source compares
  with possibly-negative values are modelled as `Int`.
* `f64` confidence thresholds are modelled as `ℚ` with exact arithmetic;
  `(x.ceil() as u64)` becomes `(Int.ceil x).toNat` (negative values clamp
  to 0, as the Rust float-to-unsigned cast does).
* Rust `HashMap` values used by `resolve_tree` / `count_values` are
  modelled as association lists in first-insertion order (the order the
  source's `entry(..).or_insert(0)` calls create keys); `HashSet` is
  modelled by its content list in first-insertion order, with iteration
  order treated as an arbitrary permutation of that list where a claim
  depends on it.
* Rust strings are modelled as `List Char` (the inputs in question are
  ASCII, so byte length and char length agree).
-/

namespace Kr2r

/-- 2^64 - 1, the initial value of `last_minimizer` in `classify_sequence`. -/
def U64MAX : Nat := 2 ^ 64 - 1

/-! ### Taxonomy (spec-modelled)

The `taxonomy.rs` module is not part of the sources under review; the
following definitions are modelled from the spec: §3 "Taxonomy" gives the
node record fields, and §4.1 gives `is_a_ancestor_of_b` ("walk parent
chain from b until reaching a (true) or 0 (false)") and `lca` ("climb the
deeper of a,b to align depths, then climb in lock-step", with contracts
`lca(0,x) = x`, `lca(x,0) = x`).  The parent walks are written with an
explicit fuel argument; under the spec invariant `parent_id < self_id`
(for nodes above the root) a fuel of `b + 1` is enough for every walk
starting at `b`, so the fuel never changes the modelled result. -/

structure TaxonomyNode where
  parent_id : Nat
  first_child : Nat
  child_count : Nat
  name_offset : Nat
  rank_offset : Nat
  external_id : Nat
  godparent_id : Nat
deriving DecidableEq

/-- Default node used for out-of-range indexing (all fields zero). -/
def defaultNode : TaxonomyNode := ⟨0, 0, 0, 0, 0, 0, 0⟩

structure Taxonomy where
  nodes : List TaxonomyNode
deriving DecidableEq

def Taxonomy.node (t : Taxonomy) (i : Nat) : TaxonomyNode :=
  t.nodes.getD i defaultNode

def Taxonomy.parentOf (t : Taxonomy) (i : Nat) : Nat :=
  (t.node i).parent_id

def Taxonomy.extOf (t : Taxonomy) (i : Nat) : Nat :=
  (t.node i).external_id

/-- Modelled from the spec: parent-chain walk of `is_a_ancestor_of_b`,
with fuel.  Returns `true` on reaching `a`, `false` on reaching 0 first. -/
def ancestorFuel (t : Taxonomy) (a : Nat) : Nat → Nat → Bool
  | 0, _ => false
  | fuel + 1, b =>
    if b = a then true
    else if b = 0 then false
    else ancestorFuel t a fuel (t.parentOf b)

/-- Modelled from the spec: `Taxonomy::is_a_ancestor_of_b` (§4.1). -/
def Taxonomy.is_a_ancestor_of_b (t : Taxonomy) (a b : Nat) : Bool :=
  ancestorFuel t a (b + 1) b

/-- Depth of a node: number of parent steps to reach node 0 (with fuel). -/
def depthFuel (t : Taxonomy) : Nat → Nat → Nat
  | 0, _ => 0
  | fuel + 1, b => if b = 0 then 0 else depthFuel t fuel (t.parentOf b) + 1

def Taxonomy.depth (t : Taxonomy) (b : Nat) : Nat :=
  depthFuel t (b + 1) b

/-- Climb `n` parent steps. -/
def climbN (t : Taxonomy) : Nat → Nat → Nat
  | 0, b => b
  | n + 1, b => climbN t n (t.parentOf b)

/-- Lock-step climb of the `lca` walk, with fuel. -/
def lcaFuel (t : Taxonomy) : Nat → Nat → Nat → Nat
  | 0, a, _ => a
  | fuel + 1, a, b =>
    if a = b then a else lcaFuel t fuel (t.parentOf a) (t.parentOf b)

/-- Modelled from the spec: `Taxonomy::lca` (§4.1): `lca(0,x) = x`,
`lca(x,0) = x`; otherwise align depths and climb in lock-step. -/
def Taxonomy.lca (t : Taxonomy) (a b : Nat) : Nat :=
  if a = 0 then b
  else if b = 0 then a
  else
    let da := t.depth a
    let db := t.depth b
    let a2 := climbN t (da - db) a
    let b2 := climbN t (db - da) b
    lcaFuel t (a2 + 1) a2 b2

/-- Spec §3 invariant on the parent relation, bounded to the node list:
every node above 0 has a strictly smaller parent id.  (Out-of-range
indices read `defaultNode`, whose parent is 0, so the walk also descends
there.) -/
def Taxonomy.WfParent (t : Taxonomy) : Prop :=
  ∀ i, i < t.nodes.length → 0 < i → t.parentOf i < i

instance (t : Taxonomy) : Decidable t.WfParent := by
  unfold Taxonomy.WfParent
  infer_instance

theorem parentOf_lt (t : Taxonomy) (hw : t.WfParent) (i : Nat) (hi : 0 < i) :
    t.parentOf i < i := by
  by_cases h : i < t.nodes.length
  · exact hw i h hi
  · have : t.node i = defaultNode := by
      unfold Taxonomy.node
      rw [List.getD_eq_default]
      omega
    unfold Taxonomy.parentOf
    rw [this]
    exact hi

/-! ### Association-list model of the hit-count `HashMap` -/

/-- Lookup a key, defaulting to 0 (`hit_counts.get(&k).unwrap_or(&0)`). -/
def alistGet (m : List (Nat × Nat)) (k : Nat) : Nat :=
  match m.find? (fun p => p.1 == k) with
  | some p => p.2
  | none => 0

/-- `*counts.entry(k).or_insert(0) += 1`: bump the first entry with key
`k`, appending `(k, 1)` if absent.  New keys appear in first-insertion
order at the tail. -/
def entryIncr (m : List (Nat × Nat)) (k : Nat) : List (Nat × Nat) :=
  match m with
  | [] => [(k, 1)]
  | p :: rest => if p.1 = k then (p.1, p.2 + 1) :: rest else p :: entryIncr rest k

theorem alistGet_nil (k : Nat) : alistGet [] k = 0 := rfl

theorem alistGet_cons (a b k' : Nat) (rest : List (Nat × Nat)) :
    alistGet ((a, b) :: rest) k' = if a = k' then b else alistGet rest k' := by
  by_cases h : a = k'
  · have hp : ((fun p : Nat × Nat => p.1 == k') (a, b)) = true := by simp [h]
    simp [alistGet, List.find?_cons_of_pos _ hp, h]
  · have hp : ¬ ((fun p : Nat × Nat => p.1 == k') (a, b)) = true := by simp [h]
    simp [alistGet, List.find?_cons_of_neg _ hp, h]

theorem alistGet_entryIncr (m : List (Nat × Nat)) (k k' : Nat) :
    alistGet (entryIncr m k) k' =
      alistGet m k' + (if k = k' then 1 else 0) := by
  induction m with
  | nil =>
    by_cases h : k = k' <;> simp [entryIncr, alistGet_cons, alistGet_nil, h]
  | cons p rest ih =>
    obtain ⟨a, b⟩ := p
    by_cases hpk : a = k
    · subst hpk
      by_cases hk' : a = k'
      · simp [entryIncr, alistGet_cons, hk']
      · simp [entryIncr, alistGet_cons, hk']
    · by_cases hk' : a = k'
      · subst hk'
        have hkk' : ¬ k = a := fun h => hpk h.symm
        simp [entryIncr, alistGet_cons, hpk, hkk']
      · simp [entryIncr, alistGet_cons, hpk, hk', ih]

/-! ### resolve_tree (src/kr2r/src/iclassify.rs, lines 97-141)

`hit_counts` is the association list of the `HashMap<u32, u64>` in
first-insertion order; iteration follows list order. -/

/-- Required score: `(confidence_threshold * total_minimizers as f64).ceil() as u64`. -/
def requiredScore (confidence_threshold : ℚ) (total_minimizers : Nat) : Nat :=
  (⌈confidence_threshold * (total_minimizers : ℚ)⌉).toNat

theorem requiredScore_zero (n : Nat) : requiredScore 0 n = 0 := by
  simp [requiredScore]

/-- Inner loop of the selection phase: the score of `taxon` is the sum of
counts of hit taxa `taxon2` with `is_a_ancestor_of_b taxon2 taxon`. -/
def pathScore (t : Taxonomy) (hits : List (Nat × Nat)) (taxon : Nat) : Nat :=
  hits.foldl (fun s p => if t.is_a_ancestor_of_b p.1 taxon then s + p.2 else s) 0

/-- Selection loop: track `(max_taxon, max_score)`, starting at `(0, 0)`;
strictly larger scores replace the leader, ties merge by `lca`. -/
def selectMax (t : Taxonomy) (hits : List (Nat × Nat)) : Nat × Nat :=
  hits.foldl
    (fun acc p =>
      let score := pathScore t hits p.1
      if score > acc.2 then (p.1, score)
      else if score = acc.2 then (t.lca acc.1 p.1, acc.2)
      else acc)
    (0, 0)

/-- Score recomputed while climbing: sum of counts of hit taxa of which
`taxon` is an ancestor (the `filter`/`map`/`sum` chain of lines 128-132). -/
def cladeScore (t : Taxonomy) (hits : List (Nat × Nat)) (taxon : Nat) : Nat :=
  ((hits.filter (fun p => t.is_a_ancestor_of_b taxon p.1)).map (fun p => p.2)).sum

/-- The `while max_taxon != 0 && max_score < required_score` loop of
lines 127-138, with fuel (the parent chain strictly descends, so fuel
`taxon + 1` is enough under `WfParent`). -/
def climbLoop (t : Taxonomy) (hits : List (Nat × Nat)) (required : Nat) :
    Nat → Nat → Nat → Nat
  | 0, taxon, _ => taxon
  | fuel + 1, taxon, score =>
    if taxon ≠ 0 ∧ score < required then
      let s := cladeScore t hits taxon
      if s ≥ required then taxon
      else climbLoop t hits required fuel (t.parentOf taxon) s
    else taxon

/-- `resolve_tree` (iclassify.rs lines 97-141). -/
def resolve_tree (hit_counts : List (Nat × Nat)) (t : Taxonomy)
    (total_minimizers : Nat) (confidence_threshold : ℚ) : Nat :=
  let required := requiredScore confidence_threshold total_minimizers
  let mt := (selectMax t hit_counts).1
  let ms := alistGet hit_counts mt
  climbLoop t hit_counts required (mt + 1) mt ms

/-! ### Claim C2: spec-level restatements of resolve_tree -/

theorem is_a_ancestor_of_b_refl (t : Taxonomy) (a : Nat) :
    t.is_a_ancestor_of_b a a = true := by
  simp [Taxonomy.is_a_ancestor_of_b, ancestorFuel]

theorem cladeScore_cons (t : Taxonomy) (a b taxon : Nat) (rest : List (Nat × Nat)) :
    cladeScore t ((a, b) :: rest) taxon =
      (if t.is_a_ancestor_of_b taxon a then b else 0) + cladeScore t rest taxon := by
  by_cases h : t.is_a_ancestor_of_b taxon a <;> simp [cladeScore, h]

/-- The direct hit count of a taxon never exceeds its clade score, since
`is_a_ancestor_of_b taxon taxon` holds. -/
theorem alistGet_le_cladeScore (t : Taxonomy) (hits : List (Nat × Nat)) (x : Nat) :
    alistGet hits x ≤ cladeScore t hits x := by
  induction hits with
  | nil => simp [alistGet_nil, cladeScore]
  | cons p rest ih =>
    obtain ⟨a, b⟩ := p
    rw [alistGet_cons, cladeScore_cons]
    by_cases h : a = x
    · subst h
      rw [is_a_ancestor_of_b_refl]
      simp
    · simp only [h, if_false]
      omega

/-- Selection phase of the amended claim C2, written as plain recursion:
scan the hit map in order, scoring each candidate by the counts of the hit
taxa that are its ancestors (itself included); strictly larger scores take
over, ties are merged through `lca`. -/
def selectMaxSpec (t : Taxonomy) (all : List (Nat × Nat)) :
    List (Nat × Nat) → Nat × Nat → Nat × Nat
  | [], acc => acc
  | p :: rest, acc =>
    let score := pathScore t all p.1
    if score > acc.2 then selectMaxSpec t all rest (p.1, score)
    else if score = acc.2 then selectMaxSpec t all rest (t.lca acc.1 p.1, acc.2)
    else selectMaxSpec t all rest acc

/-- Climb phase as stated by claim C2: return the taxon as soon as its
ancestor-credited (clade) score reaches the required score, stop at 0,
otherwise move to the parent. -/
def climbSpec (t : Taxonomy) (hits : List (Nat × Nat)) (required : Nat) :
    Nat → Nat → Nat
  | 0, taxon => taxon
  | fuel + 1, taxon =>
    if cladeScore t hits taxon ≥ required then taxon
    else if taxon = 0 then 0
    else climbSpec t hits required fuel (t.parentOf taxon)

/-- Resolution algorithm as described by the amended claim C2. -/
def resolveTreeSpec (hit_counts : List (Nat × Nat)) (t : Taxonomy)
    (total_minimizers : Nat) (confidence_threshold : ℚ) : Nat :=
  let required := requiredScore confidence_threshold total_minimizers
  let mt := (selectMaxSpec t hit_counts hit_counts (0, 0)).1
  climbSpec t hit_counts required (mt + 1) mt

/-- Selection phase exactly as claim C2 words it (before amendment): score
each hit taxon by the counts of all hit taxa of which it is an ancestor
(its descendants' hits plus its own) and keep a maximal one. -/
def selectMaxClaim (t : Taxonomy) (all : List (Nat × Nat)) :
    List (Nat × Nat) → Nat × Nat → Nat × Nat
  | [], acc => acc
  | p :: rest, acc =>
    let score := cladeScore t all p.1
    if score > acc.2 then selectMaxClaim t all rest (p.1, score)
    else selectMaxClaim t all rest acc

/-- Resolution algorithm exactly as claim C2 words it (before amendment). -/
def resolveTreeClaim (hit_counts : List (Nat × Nat)) (t : Taxonomy)
    (total_minimizers : Nat) (confidence_threshold : ℚ) : Nat :=
  let required := requiredScore confidence_threshold total_minimizers
  let mt := (selectMaxClaim t hit_counts hit_counts (0, 0)).1
  climbSpec t hit_counts required (mt + 1) mt

theorem selectMax_eq_spec (t : Taxonomy) (hits : List (Nat × Nat)) :
    ∀ (l : List (Nat × Nat)) (acc : Nat × Nat),
      l.foldl
        (fun acc p =>
          let score := pathScore t hits p.1
          if score > acc.2 then (p.1, score)
          else if score = acc.2 then (t.lca acc.1 p.1, acc.2)
          else acc)
        acc = selectMaxSpec t hits l acc := by
  intro l
  induction l with
  | nil => intro acc; rfl
  | cons p rest ih =>
    intro acc
    simp only [List.foldl_cons, selectMaxSpec]
    by_cases h1 : pathScore t hits p.1 > acc.2
    · rw [if_pos h1, if_pos h1]
      exact ih _
    · by_cases h2 : pathScore t hits p.1 = acc.2
      · rw [if_neg h1, if_neg h1, if_pos h2, if_pos h2]
        exact ih _
      · rw [if_neg h1, if_neg h1, if_neg h2, if_neg h2]
        exact ih _

theorem climbLoop_eq_climbSpec (t : Taxonomy) (hw : t.WfParent)
    (hits : List (Nat × Nat)) (required : Nat) :
    ∀ taxon fuel1 fuel2 score, taxon + 1 ≤ fuel1 → taxon + 1 ≤ fuel2 →
      score < required →
      climbLoop t hits required fuel1 taxon score =
        climbSpec t hits required fuel2 taxon := by
  intro taxon
  induction taxon using Nat.strong_induction_on with
  | _ taxon ih =>
    intro fuel1 fuel2 score h1 h2 hs
    match fuel1, h1 with
    | f1 + 1, h1 =>
      match fuel2, h2 with
      | f2 + 1, h2 =>
        by_cases ht : taxon = 0
        · subst ht
          by_cases hc : cladeScore t hits 0 ≥ required <;>
            simp [climbLoop, climbSpec, hs, hc]
        · by_cases hc : cladeScore t hits taxon ≥ required
          · simp [climbLoop, climbSpec, ht, hs, hc]
          · have hp : t.parentOf taxon < taxon :=
              parentOf_lt t hw taxon (Nat.pos_of_ne_zero ht)
            have := ih (t.parentOf taxon) hp f1 f2 (cladeScore t hits taxon)
              (by omega) (by omega) (by omega)
            simp [climbLoop, climbSpec, ht, hs, hc, this]

/-- Claim C2 (amended): on a well-formed taxonomy, `resolve_tree` computes
`required_score = ceil(confidence * total_minimizers)`, selects the hit
taxon whose root-path score (counts of hit taxa that are its ancestors,
itself included) is maximal with ties merged by `lca`, returns it once its
clade (ancestor-credited) score reaches `required_score`, and otherwise
climbs to the parent repeatedly until the clade score reaches
`required_score` or the taxon becomes 0 (unclassified). -/
theorem C2_resolve_tree_amended (t : Taxonomy) (hw : t.WfParent)
    (hits : List (Nat × Nat)) (total : Nat) (conf : ℚ) :
    resolve_tree hits t total conf = resolveTreeSpec hits t total conf := by
  unfold resolve_tree resolveTreeSpec
  rw [show selectMax t hits = selectMaxSpec t hits hits (0, 0) from
    selectMax_eq_spec t hits hits (0, 0)]
  set required := requiredScore conf total with hreq
  set mt := (selectMaxSpec t hits hits (0, 0)).1 with hmt
  by_cases hm : alistGet hits mt < required
  · exact climbLoop_eq_climbSpec t hw hits required mt (mt + 1) (mt + 1)
      (alistGet hits mt) (le_refl _) (le_refl _) hm
  · have hclade : cladeScore t hits mt ≥ required :=
      le_trans (le_of_not_lt hm) (alistGet_le_cladeScore t hits mt)
    by_cases hz : mt ≠ 0 ∧ alistGet hits mt < required
    · exact absurd hz.2 hm
    · simp [climbLoop, climbSpec, hz, hclade]

/-- Concrete taxonomy for the C2/C4 counterexamples: node 1 is the root,
node 2 its child; external ids 0, 101, 102. -/
def taxC2 : Taxonomy :=
  ⟨[⟨0, 0, 0, 0, 0, 0, 0⟩, ⟨0, 0, 0, 0, 0, 101, 0⟩, ⟨1, 0, 0, 0, 0, 102, 0⟩]⟩

/-- Claim C2 as stated is false: with hits `{1 ↦ 5, 2 ↦ 1}` (node 2 a
child of root 1), total 6 and confidence 0, the code selects by root-path
scores and returns taxon 2, while the claim's descendant-credited
selection returns taxon 1. -/
theorem C2_counterexample :
    resolve_tree [(1, 5), (2, 1)] taxC2 6 0 = 2 ∧
      resolveTreeClaim [(1, 5), (2, 1)] taxC2 6 0 = 1 := by
  have h : requiredScore 0 6 = 0 := requiredScore_zero 6
  constructor
  · simp only [resolve_tree, h]
    decide
  · simp only [resolveTreeClaim, h]
    decide

/-- Witness instantiating the amended C2 theorem at a concrete input. -/
theorem C2_amended_witness :
    taxC2.WfParent ∧
      resolve_tree [(1, 5), (2, 1)] taxC2 6 0 =
        resolveTreeSpec [(1, 5), (2, 1)] taxC2 6 0 := by
  refine ⟨by decide, C2_resolve_tree_amended taxC2 (by decide) [(1, 5), (2, 1)] 6 0⟩

/-! ### Compact hash table (spec-modelled)

The `compact_hash.rs` module is not part of the sources under review; the
following is modelled from the spec: §3 "CHT slot" (upper `32 -
value_bits` bits fingerprint, lower `value_bits` bits taxid, 0 = empty),
§4.3 (`cell = hash mod capacity`, `fingerprint = hash >> 32` truncated to
`32 - value_bits` bits, `partition_index = cell / hash_size`, `slot.idx =
cell mod hash_size`, probing linear within a single partition) and §4.4
(`get`: probe linearly until a matching fingerprint — return its value —
or an empty slot — return 0).  The probe carries the partition length as
fuel: a full wrap without a match returns 0. -/

structure CHTableM where
  capacity : Nat
  value_bits : Nat
  hash_size : Nat
  table : List Nat
deriving DecidableEq

def CHTableM.value_mask (c : CHTableM) : Nat := 2 ^ c.value_bits - 1

/-- Fingerprint of a minimizer hash: high 32 bits, truncated to the
`32 - value_bits` bits that fit the packed cell. -/
def fingerprint (value_bits hash : Nat) : Nat :=
  (hash / 2 ^ 32) % 2 ^ (32 - value_bits)

def CHTableM.cellAt (c : CHTableM) (i : Nat) : Nat := c.table.getD i 0

/-- Length of partition `p`: `hash_size`, except for a shorter final
partition when `hash_size` does not divide `capacity`. -/
def CHTableM.partLen (c : CHTableM) (p : Nat) : Nat :=
  min c.hash_size (c.capacity - p * c.hash_size)

/-- Linear probe within partition `p` starting at local index `idx`,
looking for fingerprint `fp`; stops on the first empty cell. -/
def probeFuel (c : CHTableM) (p fp : Nat) : Nat → Nat → Option Nat
  | 0, _ => none
  | fuel + 1, idx =>
    let cell := c.cellAt (p * c.hash_size + idx)
    if cell = 0 then none
    else if cell / 2 ^ c.value_bits = fp then some cell
    else probeFuel c p fp fuel ((idx + 1) % c.partLen p)

/-- Probe for a minimizer hash: full cell index mod capacity, split into
partition ordinal and local index. -/
def CHTableM.probe (c : CHTableM) (hash : Nat) : Option Nat :=
  let cell_index := hash % c.capacity
  let p := cell_index / c.hash_size
  let idx := cell_index % c.hash_size
  probeFuel c p (fingerprint c.value_bits hash) (c.partLen p) idx

/-- Modelled from the spec: `CHTable::get` (§4.4); returns the taxid part
of the matching cell, 0 when the probe hits an empty slot. -/
def CHTableM.get (c : CHTableM) (hash : Nat) : Nat :=
  match c.probe hash with
  | some cell => cell % 2 ^ c.value_bits
  | none => 0

/-- Modelled from the spec: `Meros` (§3).  Only `min_clear_hash_value` is
read by the code under review; the scanner parameters are carried for
completeness. -/
structure Meros where
  k : Nat
  l : Nat
  spaced_seed_mask : Nat
  toggle_mask : Nat
  min_clear_hash_value : Option Nat
deriving DecidableEq

/-- A Meros with sub-sampling disabled (`min_clear_hash_value = None`). -/
def merosNone : Meros := ⟨35, 31, 0, 0, none⟩

/-! ### classify_sequence (src/kr2r/src/iclassify.rs, lines 15-76) -/

/-- SeqReads (src/kr2r/src/seq.rs lines 129-133): a read id plus one hash
vector per mate. -/
structure SeqReads where
  dna_id : List Char
  seq_paired : List (List Nat)
deriving DecidableEq

/-- State of the hit-accumulation loop of `classify_sequence`. -/
structure ClassifyState where
  hit_counts : List (Nat × Nat)
  total_kmers : Nat
  minimizer_hit_groups : Nat
  last_minimizer : Nat
deriving DecidableEq

/-- Body of the inner loop of `classify_sequence` (lines 31-49) for one
hash. -/
def classifyStep (c : CHTableM) (min_hash_check : Nat) (st : ClassifyState)
    (hashed : Nat) : ClassifyState :=
  let taxon := if hashed ≥ min_hash_check then c.get hashed else 0
  let groups :=
    if st.last_minimizer ≠ hashed then
      if 0 < taxon then st.minimizer_hit_groups + 1 else st.minimizer_hit_groups
    else st.minimizer_hit_groups
  let last := if st.last_minimizer ≠ hashed then hashed else st.last_minimizer
  let counts := if 0 < taxon then entryIncr st.hit_counts taxon else st.hit_counts
  ⟨counts, st.total_kmers + 1, groups, last⟩

/-- The nested loop of lines 30-50: both mates' hash vectors in order,
starting from empty counts and `last_minimizer = u64::MAX`. -/
def classifyLoop (c : CHTableM) (min_hash_check : Nat)
    (seq_paired : List (List Nat)) : ClassifyState :=
  seq_paired.foldl (fun st ks => ks.foldl (classifyStep c min_hash_check) st)
    ⟨[], 0, 0, U64MAX⟩

/-- Rust `str::ends_with` on ASCII byte strings. -/
def endsWithL (s pat : List Char) : Bool :=
  decide (s.drop (s.length - pat.length) = pat ∧ pat.length ≤ s.length)

/-- `trim_pair_info` (iclassify.rs lines 67-76). -/
def trim_pair_info (id : List Char) : List Char :=
  let sz := id.length
  if sz ≤ 2 then id
  else if endsWithL id ['/', '1'] || endsWithL id ['/', '2'] then id.take (sz - 2)
  else id

/-- Decimal rendering of a taxid, as `format!` produces it. -/
def natToChars (n : Nat) : List Char := Nat.toDigits 10 n

/-- The final call of `classify_sequence` (lines 52-55): `resolve_tree`'s
result, overwritten to 0 when it is positive but `minimizer_hit_groups <
minimum_hit_groups`. -/
def classifyFinalCall (t : Taxonomy) (c : CHTableM) (sr : SeqReads) (meros : Meros)
    (confidence_threshold : ℚ) (minimum_hit_groups : Int) : Nat :=
  let st := classifyLoop c (meros.min_clear_hash_value.getD 0) sr.seq_paired
  let call0 := resolve_tree st.hit_counts t st.total_kmers confidence_threshold
  if 0 < call0 ∧ (st.minimizer_hit_groups : Int) < minimum_hit_groups then 0
  else call0

/-- `classify_sequence` (iclassify.rs lines 15-65): the output line
`C|U \t trimmed-id \t external-taxid` (the caller appends the newline). -/
def classify_sequence (t : Taxonomy) (c : CHTableM) (sr : SeqReads) (meros : Meros)
    (confidence_threshold : ℚ) (minimum_hit_groups : Int) : List Char :=
  let call := classifyFinalCall t c sr meros confidence_threshold minimum_hit_groups
  let ext_call := t.extOf call
  (if 0 < call then ['C'] else ['U']) ++
    '\t' :: trim_pair_info sr.dna_id ++ '\t' :: natToChars ext_call

/-- The (classified?, external taxid) pair of a `classify_sequence` call,
for comparison with the partitioned resolver. -/
def classifyCallPair (t : Taxonomy) (c : CHTableM) (sr : SeqReads) (meros : Meros)
    (confidence_threshold : ℚ) (minimum_hit_groups : Int) : Bool × Nat :=
  let call := classifyFinalCall t c sr meros confidence_threshold minimum_hit_groups
  (decide (0 < call), t.extOf call)

/-! ### Claim C3: characterisation of the hit-accumulation loop -/

/-- Taxid obtained for one hash, as claim C3 words it: a hash below
`min_clear_hash_value` is treated as taxid 0, otherwise the table lookup
decides. -/
def taxonFor (c : CHTableM) (minCheck hash : Nat) : Nat :=
  if hash ≥ minCheck then c.get hash else 0

/-- Number of positions of a hash list at which the hash differs from the
previously seen hash (initially `u64::MAX`) and the taxid obtained is
positive. -/
def hitRunCount (f : Nat → Nat) (hs : List Nat) : Nat :=
  List.countP (fun p => decide (p.1 ≠ p.2 ∧ 0 < f p.1)) (hs.zip (U64MAX :: hs))

theorem classifyStep_last (c : CHTableM) (mc : Nat) (st : ClassifyState) (h : Nat) :
    (classifyStep c mc st h).last_minimizer = h := by
  by_cases hl : st.last_minimizer = h <;> simp [classifyStep, hl]

theorem classifyStep_total (c : CHTableM) (mc : Nat) (st : ClassifyState) (h : Nat) :
    (classifyStep c mc st h).total_kmers = st.total_kmers + 1 := rfl

theorem classifyStep_groups (c : CHTableM) (mc : Nat) (st : ClassifyState) (h : Nat) :
    (classifyStep c mc st h).minimizer_hit_groups =
      st.minimizer_hit_groups +
        (if h ≠ st.last_minimizer ∧ 0 < taxonFor c mc h then 1 else 0) := by
  show (if st.last_minimizer ≠ h then
          if 0 < taxonFor c mc h then st.minimizer_hit_groups + 1
          else st.minimizer_hit_groups
        else st.minimizer_hit_groups) = _
  by_cases hl : st.last_minimizer = h
  · rw [if_neg (by simp [hl]), if_neg (by simp [hl])]
    omega
  · have hh : h ≠ st.last_minimizer := fun e => hl e.symm
    rw [if_pos hl]
    by_cases ht : 0 < taxonFor c mc h
    · rw [if_pos ht, if_pos ⟨hh, ht⟩]
    · rw [if_neg ht, if_neg (fun hc => ht hc.2)]
      omega

theorem classifyStep_counts (c : CHTableM) (mc : Nat) (st : ClassifyState) (h : Nat) :
    (classifyStep c mc st h).hit_counts =
      if 0 < taxonFor c mc h then entryIncr st.hit_counts (taxonFor c mc h)
      else st.hit_counts := rfl

theorem foldl_step_total (c : CHTableM) (mc : Nat) :
    ∀ (hs : List Nat) (st : ClassifyState),
      (hs.foldl (classifyStep c mc) st).total_kmers = st.total_kmers + hs.length := by
  intro hs
  induction hs with
  | nil => intro st; simp
  | cons h rest ih =>
    intro st
    rw [List.foldl_cons, ih, classifyStep_total]
    simp
    omega

theorem foldl_step_groups (c : CHTableM) (mc : Nat) :
    ∀ (hs : List Nat) (st : ClassifyState),
      (hs.foldl (classifyStep c mc) st).minimizer_hit_groups =
        st.minimizer_hit_groups +
          List.countP (fun p => decide (p.1 ≠ p.2 ∧ 0 < taxonFor c mc p.1))
            (hs.zip (st.last_minimizer :: hs)) := by
  intro hs
  induction hs with
  | nil => intro st; simp
  | cons h rest ih =>
    intro st
    rw [List.foldl_cons, ih, classifyStep_last, classifyStep_groups]
    rw [List.zip_cons_cons, List.countP_cons]
    by_cases hp : h ≠ st.last_minimizer ∧ 0 < taxonFor c mc h <;> simp [hp] <;> omega

theorem foldl_step_counts (c : CHTableM) (mc : Nat) :
    ∀ (hs : List Nat) (st : ClassifyState) (tax : Nat), 0 < tax →
      alistGet (hs.foldl (classifyStep c mc) st).hit_counts tax =
        alistGet st.hit_counts tax +
          (hs.filter (fun h => taxonFor c mc h == tax)).length := by
  intro hs
  induction hs with
  | nil => intro st tax _; simp
  | cons h rest ih =>
    intro st tax htax
    rw [List.foldl_cons, ih _ tax htax]
    rw [List.filter_cons]
    by_cases hv : taxonFor c mc h = tax
    · rw [classifyStep_counts, hv, if_pos htax, alistGet_entryIncr]
      simp [hv]
      omega
    · rw [classifyStep_counts]
      by_cases h0 : 0 < taxonFor c mc h
      · rw [if_pos h0, alistGet_entryIncr]
        simp [hv]
      · rw [if_neg h0]
        simp [hv]

theorem foldl_nested_join {α β : Type} (f : β → α → β) :
    ∀ (L : List (List α)) (st : β),
      L.foldl (fun st ks => ks.foldl f st) st = (L.flatten).foldl f st := by
  intro L
  induction L with
  | nil => intro st; rfl
  | cons ks rest ih =>
    intro st
    rw [List.foldl_cons, ih, List.flatten_cons, List.foldl_append]

theorem classifyLoop_eq_join (c : CHTableM) (mc : Nat) (mates : List (List Nat)) :
    classifyLoop c mc mates =
      (mates.flatten).foldl (classifyStep c mc) ⟨[], 0, 0, U64MAX⟩ :=
  foldl_nested_join (classifyStep c mc) mates ⟨[], 0, 0, U64MAX⟩

/-- Claim C3: in `classify_sequence`, a hash below `min_clear_hash_value`
yields taxid 0 and records no hit; `minimizer_hit_groups` counts exactly
the positions of the concatenated mate hash list where the hash differs
from the previously seen hash (initially `u64::MAX`) and the obtained
taxid is positive; `total_kmers` counts every hash; and for every
positive taxid the recorded hit count is the number of hashes at or above
the threshold that look it up. -/
theorem C3_hit_accumulation (c : CHTableM) (meros : Meros) (mates : List (List Nat)) :
    (classifyLoop c (meros.min_clear_hash_value.getD 0) mates).total_kmers =
        mates.flatten.length ∧
      (classifyLoop c (meros.min_clear_hash_value.getD 0) mates).minimizer_hit_groups =
        hitRunCount (taxonFor c (meros.min_clear_hash_value.getD 0)) mates.flatten ∧
      ∀ tax, 0 < tax →
        alistGet (classifyLoop c (meros.min_clear_hash_value.getD 0) mates).hit_counts
            tax =
          (mates.flatten.filter
            (fun h => taxonFor c (meros.min_clear_hash_value.getD 0) h == tax)).length := by
  rw [classifyLoop_eq_join]
  refine ⟨?_, ?_, ?_⟩
  · rw [foldl_step_total]
    simp
  · rw [foldl_step_groups]
    simp [hitRunCount]
  · intro tax htax
    rw [foldl_step_counts _ _ _ _ tax htax]
    simp [alistGet_nil]

/-- Concrete table for witnesses and the C1 counterexample: capacity 4,
8 value bits, one partition; cells 1 and 2 hold fingerprint 1 and 2, both
with taxid 5. -/
def chtC1 : CHTableM := ⟨4, 8, 4, [0, 261, 517, 0]⟩

/-- Hash with fingerprint 1, cell 1. -/
def hA : Nat := 2 ^ 32 + 1

/-- Hash with fingerprint 2, cell 2. -/
def hB : Nat := 2 ^ 33 + 2

/-- Witness instantiating C3 at a concrete table and read. -/
theorem C3_witness :
    (0 : Nat) < 5 ∧
      alistGet (classifyLoop chtC1 (merosNone.min_clear_hash_value.getD 0)
            [[hA], [hB, hA]]).hit_counts 5 =
        (([[hA], [hB, hA]] : List (List Nat)).flatten.filter
          (fun h => taxonFor chtC1 (merosNone.min_clear_hash_value.getD 0) h == 5)).length :=
  ⟨by decide, (C3_hit_accumulation chtC1 merosNone [[hA], [hB, hA]]).2.2 5 (by decide)⟩

/-! ### Claim C4: output line of classify_sequence -/

/-- Id transformation exactly as claim C4 states it (before amendment):
a trailing "/1" or "/2" is removed, unconditionally. -/
def claimStrip (id : List Char) : List Char :=
  if endsWithL id ['/', '1'] || endsWithL id ['/', '2'] then id.take (id.length - 2)
  else id

/-- Id transformation of the amended claim C4: the trailing "/1" or "/2"
is removed only when the id is longer than two characters. -/
def stripPairSuffix (id : List Char) : List Char :=
  if 2 < id.length ∧ (endsWithL id ['/', '1'] || endsWithL id ['/', '2']) = true
  then id.take (id.length - 2)
  else id

theorem trim_pair_info_eq_strip (id : List Char) :
    trim_pair_info id = stripPairSuffix id := by
  unfold trim_pair_info stripPairSuffix
  by_cases h1 : id.length ≤ 2
  · rw [if_pos h1, if_neg (fun hc => by omega)]
  · rw [if_neg h1]
    by_cases h2 : (endsWithL id ['/', '1'] || endsWithL id ['/', '2']) = true
    · rw [if_pos h2, if_pos ⟨by omega, h2⟩]
    · rw [if_neg h2, if_neg (fun hc => h2 hc.2)]

theorem natToChars_zero : natToChars 0 = ['0'] := by decide

/-- Claim C4 (amended): `classify_sequence` emits
`C \t id \t external-taxid` when the final call — `resolve_tree`'s result
overwritten to 0 when positive but with too few minimizer hit groups — is
positive, and `U \t id \t 0` when it is 0; the id is the read's `dna_id`
with a trailing "/1" or "/2" removed when the id is longer than two
characters. -/
theorem C4_output_line_amended (t : Taxonomy) (c : CHTableM) (sr : SeqReads)
    (meros : Meros) (conf : ℚ) (mhg : Int) (h0 : t.extOf 0 = 0) :
    (0 < classifyFinalCall t c sr meros conf mhg →
      classify_sequence t c sr meros conf mhg =
        'C' :: '\t' :: stripPairSuffix sr.dna_id ++
          '\t' :: natToChars (t.extOf (classifyFinalCall t c sr meros conf mhg))) ∧
      (classifyFinalCall t c sr meros conf mhg = 0 →
        classify_sequence t c sr meros conf mhg =
          'U' :: '\t' :: stripPairSuffix sr.dna_id ++ '\t' :: ['0']) := by
  constructor
  · intro h
    simp only [classify_sequence]
    rw [if_pos h, trim_pair_info_eq_strip]
    simp
  · intro h
    simp only [classify_sequence]
    rw [h, trim_pair_info_eq_strip, h0, natToChars_zero]
    simp

/-- Trivial one-slot table whose every lookup misses. -/
def chtEmpty : CHTableM := ⟨1, 1, 1, [0]⟩

/-- Output line exactly as claim C4 states it (before amendment), with
the unconditional suffix strip. -/
def claimLineC4 (t : Taxonomy) (c : CHTableM) (sr : SeqReads) (meros : Meros)
    (conf : ℚ) (mhg : Int) : List Char :=
  let call := classifyFinalCall t c sr meros conf mhg
  (if 0 < call then ['C'] else ['U']) ++
    '\t' :: claimStrip sr.dna_id ++
      '\t' :: natToChars (if 0 < call then t.extOf call else 0)

/-- Claim C4 as stated is false at a read whose `dna_id` is exactly "/1":
`trim_pair_info` keeps ids of length ≤ 2 unchanged, so the code prints
`U\t/1\t0` while the claim's unconditional strip demands `U\t\t0`. -/
theorem C4_counterexample :
    classify_sequence taxC2 chtEmpty ⟨['/', '1'], [[]]⟩ merosNone 0 2 =
        ['U', '\t', '/', '1', '\t', '0'] ∧
      claimLineC4 taxC2 chtEmpty ⟨['/', '1'], [[]]⟩ merosNone 0 2 =
        ['U', '\t', '\t', '0'] ∧
      (['U', '\t', '/', '1', '\t', '0'] : List Char) ≠ ['U', '\t', '\t', '0'] := by
  refine ⟨?_, ?_, by decide⟩
  · simp only [classify_sequence, classifyFinalCall, resolve_tree, requiredScore_zero]
    decide
  · simp only [claimLineC4, classifyFinalCall, resolve_tree, requiredScore_zero]
    decide

/-- Taxonomy for C1/C4 witnesses: root 1, nodes 2-5 children of the root,
node 5 with external id 500. -/
def taxC1 : Taxonomy :=
  ⟨[⟨0, 0, 0, 0, 0, 0, 0⟩, ⟨0, 0, 0, 0, 0, 1, 0⟩, ⟨1, 0, 0, 0, 0, 2, 0⟩,
    ⟨1, 0, 0, 0, 0, 3, 0⟩, ⟨1, 0, 0, 0, 0, 4, 0⟩, ⟨1, 0, 0, 0, 0, 500, 0⟩]⟩

/-- Witness instantiating the amended C4 theorem on a classified read. -/
theorem C4_witness :
    taxC1.extOf 0 = 0 ∧
      0 < classifyFinalCall taxC1 chtC1 ⟨['r'], [[hA]]⟩ merosNone 0 1 ∧
      classify_sequence taxC1 chtC1 ⟨['r'], [[hA]]⟩ merosNone 0 1 =
        'C' :: '\t' :: stripPairSuffix ['r'] ++
          '\t' :: natToChars
            (taxC1.extOf (classifyFinalCall taxC1 chtC1 ⟨['r'], [[hA]]⟩ merosNone 0 1)) := by
  have hc : 0 < classifyFinalCall taxC1 chtC1 ⟨['r'], [[hA]]⟩ merosNone 0 1 := by
    simp only [classifyFinalCall, resolve_tree, requiredScore_zero]
    decide
  exact ⟨by decide, hc,
    (C4_output_line_amended taxC1 chtC1 ⟨['r'], [[hA]]⟩ merosNone 0 1 (by decide)).1 hc⟩

/-! ### Claim C6: seq_x quality masking (src/kr2r/src/seq.rs lines 97-127) -/

/-- A FASTQ record: id, sequence bytes and quality bytes. -/
structure FastqRecordM where
  id : List Char
  seq : List Nat
  qual : List Nat
deriving DecidableEq

/-- `SeqX::seq_x` for FASTQ (seq.rs lines 101-120): with a positive
score, mask bases whose phred (`qscore - '!'`) is below it with `b'x'`
(byte 120). -/
def FastqRecordM.seq_x (r : FastqRecordM) (score : Int) : List Nat :=
  if score ≤ 0 then r.seq
  else (r.seq.zip r.qual).map
    (fun p => if (p.2 : Int) - 33 < score then 120 else p.1)

/-- A FASTA record: id and sequence bytes. -/
structure FastaRecordM where
  id : List Char
  seq : List Nat
deriving DecidableEq

/-- `SeqX::seq_x` for FASTA (seq.rs lines 122-127): the score is unused. -/
def FastaRecordM.seq_x (r : FastaRecordM) (score : Int) : List Nat := r.seq

/-- Claim C6: for FASTQ and `q > 0` (and equal-length seq/qual), `seq_x`
keeps the length and replaces position `i` with `b'x'` exactly when
`qual[i] - 33 < q`; for `q ≤ 0`, and for FASTA at any `q`, the sequence
is returned unchanged. -/
theorem C6_seq_x (r : FastqRecordM) (q : Int) (rf : FastaRecordM) :
    (0 < q → r.qual.length = r.seq.length →
        (r.seq_x q).length = r.seq.length ∧
          ∀ i, i < r.seq.length →
            (r.seq_x q).getD i 0 =
              if (r.qual.getD i 0 : Int) - 33 < q then 120 else r.seq.getD i 0) ∧
      (q ≤ 0 → r.seq_x q = r.seq) ∧ rf.seq_x q = rf.seq := by
  refine ⟨?_, ?_, rfl⟩
  · intro hq hlen
    have hq' : ¬ q ≤ 0 := by omega
    unfold FastqRecordM.seq_x
    rw [if_neg hq']
    have hzlen : (r.seq.zip r.qual).length = r.seq.length := by
      rw [List.length_zip, hlen, Nat.min_self]
    constructor
    · rw [List.length_map, hzlen]
    · intro i hi
      have hi1 : i < ((r.seq.zip r.qual).map
          (fun p => if (p.2 : Int) - 33 < q then 120 else p.1)).length := by
        rw [List.length_map, hzlen]; exact hi
      have hi2 : i < (r.seq.zip r.qual).length := by rw [hzlen]; exact hi
      have hiq : i < r.qual.length := by omega
      rw [List.getD_eq_getElem _ _ hi1, List.getElem_map, List.getElem_zip,
        List.getD_eq_getElem _ _ hi, List.getD_eq_getElem _ _ hiq]
  · intro hq
    unfold FastqRecordM.seq_x
    rw [if_pos hq]

/-- Witness instantiating C6 at a concrete FASTQ record. -/
theorem C6_witness :
    (0 : Int) < 5 ∧
      (FastqRecordM.qual ⟨['r'], [65, 67], [33, 70]⟩).length =
        (FastqRecordM.seq ⟨['r'], [65, 67], [33, 70]⟩).length ∧
      (FastqRecordM.seq_x ⟨['r'], [65, 67], [33, 70]⟩ 5).getD 1 0 =
        if ((FastqRecordM.qual ⟨['r'], [65, 67], [33, 70]⟩).getD 1 0 : Int) - 33 < 5
        then 120 else (FastqRecordM.seq ⟨['r'], [65, 67], [33, 70]⟩).getD 1 0 := by
  have h := (C6_seq_x ⟨['r'], [65, 67], [33, 70]⟩ 5 ⟨['f'], [65]⟩).1
    (by decide) (by decide)
  exact ⟨by decide, by decide, h.2 1 (by decide)⟩

/-! ### Claims C7 and C8: startup checks and paired-mode dispatch

The CLI surface of `classify.rs` (main, lines 230-256; process_files,
lines 182-228) and `splitr.rs` (run, lines 346-376; convert, lines
273-344) is modelled by its control flow: each input file is represented
by the result of `detect_file_format` on it (an excluded collaborator)
paired with an identifying number, and the work done on a file is
represented by an action value instead of I/O. -/

inductive KrErrorKind where
  | invalidInput
  | unrecognizedFormat
  | ioError
deriving DecidableEq

inductive DetectResult where
  | fastq
  | fasta
  | detectErr
deriving DecidableEq

/-- Rust `slice::chunks(2)`: pairs in order, a trailing singleton kept. -/
def chunksTwo {α : Type} : List α → List (List α)
  | [] => []
  | [x] => [[x]]
  | x :: y :: rest => [x, y] :: chunksTwo rest

inductive ClassifyAction where
  | fastqPaired (f1 f2 : Nat)
  | fastqSingle (f : Nat)
  | fastaSingle (f : Nat)
deriving DecidableEq

/-- Paired branch of `process_files` (classify.rs lines 190-212): FASTQ
pairs are processed, a FASTA first file is a fatal format error, a
detection failure propagates as an I/O error. -/
def classifyPairedLoop : List (List (DetectResult × Nat)) →
    Except KrErrorKind (List ClassifyAction)
  | [] => Except.ok []
  | pair :: rest =>
    match pair with
    | [] => classifyPairedLoop rest
    | f1 :: others =>
      match f1.1 with
      | DetectResult.fastq =>
        match classifyPairedLoop rest with
        | Except.ok acts =>
          Except.ok (ClassifyAction.fastqPaired f1.2 ((others.headD f1).2) :: acts)
        | Except.error e => Except.error e
      | DetectResult.fasta => Except.error KrErrorKind.unrecognizedFormat
      | DetectResult.detectErr => Except.error KrErrorKind.ioError

/-- Single-file branch of `process_files` (classify.rs lines 213-225). -/
def classifySingleLoop : List (DetectResult × Nat) →
    Except KrErrorKind (List ClassifyAction)
  | [] => Except.ok []
  | f :: rest =>
    match f.1 with
    | DetectResult.fastq =>
      match classifySingleLoop rest with
      | Except.ok acts => Except.ok (ClassifyAction.fastqSingle f.2 :: acts)
      | Except.error e => Except.error e
    | DetectResult.fasta =>
      match classifySingleLoop rest with
      | Except.ok acts => Except.ok (ClassifyAction.fastaSingle f.2 :: acts)
      | Except.error e => Except.error e
    | DetectResult.detectErr => Except.error KrErrorKind.ioError

/-- `process_files` (classify.rs lines 182-228). -/
def classify_process_files (paired single : Bool)
    (files : List (DetectResult × Nat)) : Except KrErrorKind (List ClassifyAction) :=
  if paired && !single then classifyPairedLoop (chunksTwo files)
  else classifySingleLoop files

/-- `main` of classify.rs (lines 230-256): option/taxonomy/index loads
(collapsed into `loadsOk`), then the even-file-count check, then
`process_files`. -/
def classify_main (loadsOk paired single : Bool)
    (files : List (DetectResult × Nat)) : Except KrErrorKind (List ClassifyAction) :=
  if !loadsOk then Except.error KrErrorKind.ioError
  else if paired && !single && (files.length % 2 != 0) then
    Except.error KrErrorKind.invalidInput
  else classify_process_files paired single files

inductive SplitAction where
  | fastq (fs : List Nat)
  | fasta (firstOnly : Nat)
deriving DecidableEq

/-- Per-pair dispatch of splitr's `convert` (splitr.rs lines 283-330):
FASTQ pairs go to `process_fastq_file`; a FASTA first file goes to
`process_fasta_file`, which reads only the first file of the pair; a
detection failure is printed and skipped. -/
def splitr_process_files (pairs : List (List (DetectResult × Nat))) :
    List SplitAction :=
  pairs.filterMap (fun pair =>
    match pair with
    | [] => none
    | f1 :: _ =>
      match f1.1 with
      | DetectResult.fastq => some (SplitAction.fastq (pair.map (fun f => f.2)))
      | DetectResult.fasta => some (SplitAction.fasta f1.2)
      | DetectResult.detectErr => none)

/-- `convert` (splitr.rs lines 273-344): chunk the input list into pairs
(paired mode) or singletons and dispatch each chunk. -/
def splitr_convert (paired single : Bool)
    (files : List (DetectResult × Nat)) : List SplitAction :=
  if paired && !single then splitr_process_files (chunksTwo files)
  else splitr_process_files (files.map (fun f => [f]))

/-- `run` of splitr.rs (lines 346-376): read `opts.k2d`, then the
even-file-count check, then `convert`. -/
def splitr_run (optsOk paired single : Bool)
    (files : List (DetectResult × Nat)) : Except KrErrorKind (List SplitAction) :=
  if !optsOk then Except.error KrErrorKind.ioError
  else if paired && !single && (files.length % 2 != 0) then
    Except.error KrErrorKind.invalidInput
  else Except.ok (splitr_convert paired single files)

/-- Claim C7: with paired-end processing on and single-file-pairs off, an
odd number of input files makes both classify's `main` and splitr's `run`
return an invalid-input error before any input file is processed. -/
theorem C7_odd_file_count_rejected (files : List (DetectResult × Nat))
    (hodd : files.length % 2 = 1) :
    classify_main true true false files = Except.error KrErrorKind.invalidInput ∧
      splitr_run true true false files = Except.error KrErrorKind.invalidInput := by
  constructor <;> simp [classify_main, splitr_run, hodd]

/-- Witness instantiating C7 with three input files. -/
theorem C7_witness :
    ([(DetectResult.fastq, 1), (DetectResult.fastq, 2),
        (DetectResult.fastq, 3)] : List (DetectResult × Nat)).length % 2 = 1 ∧
      classify_main true true false
          [(DetectResult.fastq, 1), (DetectResult.fastq, 2), (DetectResult.fastq, 3)] =
        Except.error KrErrorKind.invalidInput :=
  ⟨by decide,
    (C7_odd_file_count_rejected
      [(DetectResult.fastq, 1), (DetectResult.fastq, 2), (DetectResult.fastq, 3)]
      (by decide)).1⟩

/-- Claim C8 (amended): in paired-end mode, classify refuses a pair whose
first file is FASTA with a fatal format error, but splitr does not: its
`convert` routes the pair to the single-file FASTA path, processing only
the pair's first file and ignoring the mate. -/
theorem C8_fasta_paired_dispatch (n : Nat) (f2 : DetectResult × Nat)
    (rest : List (DetectResult × Nat)) :
    classify_process_files true false ((DetectResult.fasta, n) :: f2 :: rest) =
        Except.error KrErrorKind.unrecognizedFormat ∧
      splitr_convert true false ((DetectResult.fasta, n) :: f2 :: rest) =
        SplitAction.fasta n :: splitr_process_files (chunksTwo rest) := by
  constructor
  · simp [classify_process_files, chunksTwo, classifyPairedLoop]
  · simp [splitr_convert, chunksTwo, splitr_process_files]

/-- Claim C8 as stated is false for splitr: a paired invocation on a
FASTA-first pair is processed (through the FASTA path, first file only)
instead of being refused. -/
theorem C8_counterexample :
    splitr_convert true false [(DetectResult.fasta, 10), (DetectResult.fastq, 11)] =
        [SplitAction.fasta 10] ∧
      ([SplitAction.fasta 10] : List SplitAction) ≠ [] := by
  exact ⟨rfl, by decide⟩

/-! ### Claim C9: the paired FASTQ reader (src/kr2r/src/seq.rs, lines 61-95)

A reader is modelled as the sequence of outcomes of successive
`read_record_set` calls: `Except.ok batch` for a successfully read batch
of records, `Except.error ()` for a read error.  `fill_data` stops (and
swallows the error) as soon as either side fails or ends; within one
round `PairRecordSetIter` zips the two batches, dropping the longer
batch's surplus. -/

def fillRounds {α : Type} : List (Except Unit (List α)) →
    List (Except Unit (List α)) → List (List α × List α)
  | Except.ok b1 :: r1, Except.ok b2 :: r2 => (b1, b2) :: fillRounds r1 r2
  | _, _ => []

/-- All read pairs yielded across rounds. -/
def pairStream {α : Type} (s1 s2 : List (Except Unit (List α))) : List (α × α) :=
  ((fillRounds s1 s2).map (fun bp => bp.1.zip bp.2)).flatten

/-- Batches successfully read before the first error. -/
def okPrefix {α : Type} : List (Except Unit (List α)) → List (List α)
  | Except.ok b :: r => b :: okPrefix r
  | _ => []

/-- Total records a reader delivers before erroring. -/
def totalRecords {α : Type} (s : List (Except Unit (List α))) : Nat :=
  (okPrefix s).flatten.length

/-- Claim C9 as stated is false: with batch boundaries 2+1 against 1+2
over three records each, the pair reader yields 2 pairs, not
min(3,3) = 3 (records 1 and 5 are silently dropped). -/
theorem C9_counterexample :
    pairStream [Except.ok [0, 1], Except.ok [2]] [Except.ok [3], Except.ok [4, 5]] =
        ([(0, 3), (2, 4)] : List (Nat × Nat)) ∧
      (pairStream [Except.ok [0, 1], Except.ok [2]]
          [Except.ok [3], Except.ok [4, 5]]).length = 2 ∧
      min (totalRecords [Except.ok [0, 1], Except.ok [2]])
          (totalRecords [Except.ok [3], Except.ok [4, 5]]) = 3 ∧
      (2 : Nat) ≠ 3 := by
  refine ⟨rfl, rfl, rfl, by decide⟩

theorem fillRounds_sum_le {α : Type} :
    ∀ (s1 s2 : List (Except Unit (List α))),
      ((fillRounds s1 s2).map (fun bp => min bp.1.length bp.2.length)).sum ≤
        min (totalRecords s1) (totalRecords s2) := by
  intro s1
  induction s1 with
  | nil => intro s2; simp [fillRounds]
  | cons e1 r1 ih =>
    intro s2
    cases s2 with
    | nil =>
      cases e1 <;> simp [fillRounds]
    | cons e2 r2 =>
      cases e1 with
      | error u => simp [fillRounds]
      | ok b1 =>
        cases e2 with
        | error u => simp [fillRounds]
        | ok b2 =>
          have h := ih r2
          simp only [fillRounds, List.map_cons, List.sum_cons, totalRecords,
            okPrefix, List.flatten_cons, List.length_append] at h ⊢
          omega

/-- Claim C9 (amended): the pair reader yields, per `fill_data` round,
`min` of the two batch lengths many pairs — so `Σ min(|b1_k|, |b2_k|)` in
total, which is at most `min(n1, n2)` and equals `min(n1, n2)` whenever
each file arrives in a single record set; iteration ends at the first
error or end of either stream and no error is surfaced. -/
theorem C9_pair_reader (s1 s2 : List (Except Unit (List Nat))) (b1 b2 : List Nat) :
    (pairStream s1 s2).length =
        ((fillRounds s1 s2).map (fun bp => min bp.1.length bp.2.length)).sum ∧
      (pairStream s1 s2).length ≤ min (totalRecords s1) (totalRecords s2) ∧
      pairStream [Except.ok b1] [Except.ok b2] = b1.zip b2 := by
  have hlen : (pairStream s1 s2).length =
      ((fillRounds s1 s2).map (fun bp => min bp.1.length bp.2.length)).sum := by
    unfold pairStream
    rw [List.length_flatten, List.map_map]
    congr 1
    apply List.map_congr_left
    intro bp _
    simp [List.length_zip]
  refine ⟨hlen, ?_, ?_⟩
  · rw [hlen]
    exact fillRounds_sum_le s1 s2
  · simp [pairStream, fillRounds]

/-! ### Claims C5 and C10: batch collection into a HashSet

`to_seq_reads` (seq.rs lines 139-156) inserts one `SeqReads` per record
of the batch into a `HashSet`.  The set is modelled by its content list
in first-insertion order; since a Rust `HashSet`'s iteration order is
unspecified, everything downstream of iteration is quantified over an
arbitrary permutation of that list.  The minimizer scanner
(`KmerIterator`, an excluded module) enters only as an opaque function
`scan` from sequence bytes to hash lists. -/

/-- One record pair converted to a `SeqReads` (seq.rs lines 143-152). -/
def toSeqRead (scan : List Nat → List Nat) (score : Int)
    (pr : FastqRecordM × FastqRecordM) : SeqReads :=
  ⟨pr.1.id, [scan (pr.1.seq_x score), scan (pr.2.seq_x score)]⟩

/-- `HashSet::insert` on the content list: append if absent. -/
def hsInsert (l : List SeqReads) (x : SeqReads) : List SeqReads :=
  if x ∈ l then l else l ++ [x]

/-- `SeqSet::to_seq_reads` for a pair record set: content list of the
resulting `HashSet<SeqReads>` in first-insertion order. -/
def to_seq_reads (scan : List Nat → List Nat) (score : Int)
    (batch : List (FastqRecordM × FastqRecordM)) : List SeqReads :=
  batch.foldl (fun s r => hsInsert s (toSeqRead scan score r)) []

/-- Lines emitted for one record set by `process_file_pairs!`
(classify.rs lines 150-177), given the set iteration order `iter`. -/
def batchLines (t : Taxonomy) (c : CHTableM) (meros : Meros) (conf : ℚ)
    (mhg : Int) (iter : List SeqReads) : List (List Char) :=
  iter.map (fun sr => classify_sequence t c sr meros conf mhg)

theorem hsInsert_nodup (l : List SeqReads) (x : SeqReads) (h : l.Nodup) :
    (hsInsert l x).Nodup := by
  unfold hsInsert
  by_cases hm : x ∈ l
  · rw [if_pos hm]; exact h
  · rw [if_neg hm]
    simp [List.nodup_append, h, hm]

theorem mem_hsInsert (l : List SeqReads) (x y : SeqReads) :
    y ∈ hsInsert l x ↔ y ∈ l ∨ y = x := by
  unfold hsInsert
  by_cases hm : x ∈ l
  · rw [if_pos hm]
    constructor
    · exact Or.inl
    · rintro (h | rfl)
      · exact h
      · exact hm
  · rw [if_neg hm]
    simp

theorem to_seq_reads_aux_nodup (scan : List Nat → List Nat) (score : Int) :
    ∀ (batch : List (FastqRecordM × FastqRecordM)) (l : List SeqReads),
      l.Nodup → (batch.foldl (fun s r => hsInsert s (toSeqRead scan score r)) l).Nodup := by
  intro batch
  induction batch with
  | nil => intro l h; exact h
  | cons r rest ih =>
    intro l h
    exact ih _ (hsInsert_nodup l _ h)

theorem to_seq_reads_aux_mem (scan : List Nat → List Nat) (score : Int) :
    ∀ (batch : List (FastqRecordM × FastqRecordM)) (l : List SeqReads) (y : SeqReads),
      (y ∈ batch.foldl (fun s r => hsInsert s (toSeqRead scan score r)) l ↔
        y ∈ l ∨ ∃ r ∈ batch, toSeqRead scan score r = y) := by
  intro batch
  induction batch with
  | nil => intro l y; simp
  | cons r rest ih =>
    intro l y
    rw [List.foldl_cons, ih, mem_hsInsert]
    constructor
    · rintro ((h | rfl) | ⟨r', hr', rfl⟩)
      · exact Or.inl h
      · exact Or.inr ⟨r, List.mem_cons_self r rest, rfl⟩
      · exact Or.inr ⟨r', List.mem_cons_of_mem r hr', rfl⟩
    · rintro (h | ⟨r', hr', rfl⟩)
      · exact Or.inl (Or.inl h)
      · rcases List.mem_cons.mp hr' with rfl | hr'
        · exact Or.inl (Or.inr rfl)
        · exact Or.inr ⟨r', hr', rfl⟩

theorem to_seq_reads_nodup (scan : List Nat → List Nat) (score : Int)
    (batch : List (FastqRecordM × FastqRecordM)) :
    (to_seq_reads scan score batch).Nodup :=
  to_seq_reads_aux_nodup scan score batch [] List.nodup_nil

theorem mem_to_seq_reads (scan : List Nat → List Nat) (score : Int)
    (batch : List (FastqRecordM × FastqRecordM)) (y : SeqReads) :
    y ∈ to_seq_reads scan score batch ↔ ∃ r ∈ batch, toSeqRead scan score r = y := by
  rw [to_seq_reads, to_seq_reads_aux_mem]
  simp

/-- Claim C10: reads of one batch are collected into a `HashSet` keyed by
`(dna_id, per-mate hash vectors)`; two reads of the batch with identical
keys collapse to a single set element, so whatever the set's iteration
order, that element occurs once and produces exactly one output line (one
line per distinct element of the batch). -/
theorem C10_batch_dedup (scan : List Nat → List Nat) (score : Int)
    (batch : List (FastqRecordM × FastqRecordM)) (r1 r2 : FastqRecordM × FastqRecordM)
    (h1 : r1 ∈ batch) (h2 : r2 ∈ batch)
    (heq : toSeqRead scan score r1 = toSeqRead scan score r2)
    (t : Taxonomy) (c : CHTableM) (meros : Meros) (conf : ℚ) (mhg : Int)
    (iter : List SeqReads) (hperm : (to_seq_reads scan score batch).Perm iter) :
    (to_seq_reads scan score batch).count (toSeqRead scan score r1) = 1 ∧
      iter.count (toSeqRead scan score r1) = 1 ∧
      (batchLines t c meros conf mhg iter).length =
        (to_seq_reads scan score batch).length := by
  have hmem : toSeqRead scan score r1 ∈ to_seq_reads scan score batch :=
    (mem_to_seq_reads scan score batch _).mpr ⟨r1, h1, rfl⟩
  have hcount : (to_seq_reads scan score batch).count (toSeqRead scan score r1) = 1 :=
    List.count_eq_one_of_mem (to_seq_reads_nodup scan score batch) hmem
  refine ⟨hcount, ?_, ?_⟩
  · rw [← hperm.count_eq]
    exact hcount
  · rw [batchLines, List.length_map, hperm.length_eq]

/-- Witness instantiating C10 on a batch holding the same record twice. -/
theorem C10_witness :
    ((⟨['a'], [65], [70]⟩, ⟨['a'], [66], [70]⟩) :
        FastqRecordM × FastqRecordM) ∈
        [((⟨['a'], [65], [70]⟩, ⟨['a'], [66], [70]⟩) : FastqRecordM × FastqRecordM),
          (⟨['a'], [65], [70]⟩, ⟨['a'], [66], [70]⟩)] ∧
      (to_seq_reads (fun l => l) 0
          [((⟨['a'], [65], [70]⟩, ⟨['a'], [66], [70]⟩) : FastqRecordM × FastqRecordM),
            (⟨['a'], [65], [70]⟩, ⟨['a'], [66], [70]⟩)]).count
          (toSeqRead (fun l => l) 0
            (⟨['a'], [65], [70]⟩, ⟨['a'], [66], [70]⟩)) = 1 := by
  refine ⟨by decide, ?_⟩
  exact (C10_batch_dedup (fun l => l) 0
    [(⟨['a'], [65], [70]⟩, ⟨['a'], [66], [70]⟩),
      (⟨['a'], [65], [70]⟩, ⟨['a'], [66], [70]⟩)]
    (⟨['a'], [65], [70]⟩, ⟨['a'], [66], [70]⟩)
    (⟨['a'], [65], [70]⟩, ⟨['a'], [66], [70]⟩)
    (by decide) (by decide) rfl taxC2 chtEmpty merosNone 0 2
    [toSeqRead (fun l => l) 0 (⟨['a'], [65], [70]⟩, ⟨['a'], [66], [70]⟩)]
    (by decide)).1

/-- Claim C5 (amended): within a record batch the in-memory classifier
emits exactly one line per distinct read, in the `HashSet`'s unspecified
iteration order — a permutation of the distinct reads' lines; input order
is not guaranteed. -/
theorem C5_batch_lines_amended (scan : List Nat → List Nat) (score : Int)
    (batch : List (FastqRecordM × FastqRecordM)) (t : Taxonomy) (c : CHTableM)
    (meros : Meros) (conf : ℚ) (mhg : Int) :
    (to_seq_reads scan score batch).Nodup ∧
      (∀ sr, sr ∈ to_seq_reads scan score batch ↔
        ∃ r ∈ batch, toSeqRead scan score r = sr) ∧
      ∀ iter, (to_seq_reads scan score batch).Perm iter →
        (batchLines t c meros conf mhg iter).Perm
          ((to_seq_reads scan score batch).map
            (fun sr => classify_sequence t c sr meros conf mhg)) := by
  refine ⟨to_seq_reads_nodup scan score batch,
    fun sr => mem_to_seq_reads scan score batch sr, ?_⟩
  intro iter hperm
  exact (hperm.map (fun sr => classify_sequence t c sr meros conf mhg)).symm

/-- Two distinct one-record reads for the C5 counterexample. -/
def recA : FastqRecordM × FastqRecordM := (⟨['a'], [], []⟩, ⟨['a'], [], []⟩)

def recB : FastqRecordM × FastqRecordM := (⟨['b'], [], []⟩, ⟨['b'], [], []⟩)

def srA : SeqReads := ⟨['a'], [[], []]⟩

def srB : SeqReads := ⟨['b'], [[], []]⟩

/-- Claim C5 as stated is false: the batch `[recA, recB]` is collected
into a `HashSet` whose content is `{srA, srB}`; the iteration order
`[srB, srA]` is a permutation of that content, and under it the emitted
lines are in the reverse of input order. -/
theorem C5_counterexample :
    to_seq_reads (fun l => l) 0 [recA, recB] = [srA, srB] ∧
      (to_seq_reads (fun l => l) 0 [recA, recB]).Perm [srB, srA] ∧
      batchLines taxC2 chtEmpty merosNone 0 2 [srB, srA] ≠
        batchLines taxC2 chtEmpty merosNone 0 2 [srA, srB] := by
  refine ⟨by decide, by decide, ?_⟩
  simp only [batchLines, classify_sequence, classifyFinalCall, resolve_tree,
    requiredScore_zero]
  decide

/-- Witness instantiating the amended C5 theorem at a reversed iteration
order of a concrete two-read batch. -/
theorem C5_amended_witness :
    (to_seq_reads (fun l => l) 0 [recA, recB]).Perm [srB, srA] ∧
      (batchLines taxC2 chtEmpty merosNone 0 2 [srB, srA]).Perm
        ((to_seq_reads (fun l => l) 0 [recA, recB]).map
          (fun sr => classify_sequence taxC2 chtEmpty sr merosNone 0 2)) := by
  have hp : (to_seq_reads (fun l => l) 0 [recA, recB]).Perm [srB, srA] := by decide
  exact ⟨hp,
    (C5_batch_lines_amended (fun l => l) 0 [recA, recB] taxC2 chtEmpty merosNone 0 2).2.2
      [srB, srA] hp⟩

/-! ### Claim C1: the two resolution paths

Split side: `process_record` (splitr.rs lines 120-140) over the
spec-modelled `HashConfig::slot_u64` (spec §3: split payload packs the
compacted fingerprint in the high 32 bits over the low 32 bits of the
seq-id).  The annotate step that joins slot records with the CHT is not
part of the sources under review and is modelled from the spec (§4.7:
"recover its taxid set by looking up the stored fingerprint+value in the
partition's CHT region"); a slot whose probe reaches an empty cell
recovers no taxid.  Resolve side: the per-group body of `process_batch`
(resolve.rs lines 105-146) with `count_values` (iclassify.rs lines
78-94). -/

structure SlotU64 where
  idx : Nat
  payload : Nat
deriving DecidableEq

/-- Modelled from the spec: `HashConfig::slot_u64` (§3, §4.3): full cell
index `hash mod capacity`; payload = compacted cell (fingerprint shifted
past the value bits) in the high 32 bits, low 32 bits of the seq-id
below. -/
def slotU64 (c : CHTableM) (hash seq_id : Nat) : SlotU64 :=
  ⟨hash % c.capacity,
   (fingerprint c.value_bits hash * 2 ^ c.value_bits) * 2 ^ 32 + seq_id % 2 ^ 32⟩

/-- `process_record` (splitr.rs lines 120-140): the k-mer count and the
slot list routed to partitions (`chunk_size` is `hash_size` at both call
sites). -/
def process_record (c : CHTableM) (hashes : List Nat) (seq_id : Nat) :
    Nat × List (Nat × SlotU64) :=
  (hashes.length,
   hashes.map (fun h =>
     let slot := slotU64 c h seq_id
     (slot.idx / c.hash_size, ⟨slot.idx % c.hash_size, slot.payload⟩)))

theorem process_record_fst (c : CHTableM) (hashes : List Nat) (seq_id : Nat) :
    (process_record c hashes seq_id).1 = hashes.length := rfl

/-- Modelled from the spec: the annotate step for one slot record —
probe the slot's partition for the payload's fingerprint; a hit emits the
matched cell over the payload's low 32 bits, a miss emits nothing. -/
def annotateSlot (c : CHTableM) (ps : Nat × SlotU64) : Option Nat :=
  (probeFuel c ps.1 (ps.2.payload / 2 ^ 32 / 2 ^ c.value_bits)
      (c.partLen ps.1) ps.2.idx).map
    (fun cell => cell * 2 ^ 32 + ps.2.payload % 2 ^ 32)

def annotateSlots (c : CHTableM) (slots : List (Nat × SlotU64)) : List Nat :=
  slots.filterMap (annotateSlot c)

/-- Grouping of `process_batch` (resolve.rs lines 117-124): the values
pushed for one `seq_id` are the high 32 bits (`item.left(0)`) of the
items whose low 32 bits (`item.right(0)`) equal it, in stream order. -/
def groupOf (items : List Nat) (sid : Nat) : List Nat :=
  (items.filter (fun it => it % 2 ^ 32 == sid)).map (fun it => it / 2 ^ 32)

/-- `count_values` (iclassify.rs lines 78-94): per-taxid counts keyed by
`value & value_mask` (for `value_mask = 2^value_bits - 1` this is
`value % (value_mask + 1)`), plus the number of distinct values. -/
def count_values (vec : List Nat) (value_mask : Nat) : List (Nat × Nat) × Nat :=
  let r := vec.foldl
    (fun (acc : List (Nat × Nat) × List Nat) v =>
      (entryIncr acc.1 (v % (value_mask + 1)),
       if v ∈ acc.2 then acc.2 else acc.2 ++ [v]))
    ([], [])
  (r.1, r.2.length)

/-- Per-group body of `process_batch` (resolve.rs lines 129-146): the
(classified?, external taxid) pair it prints for one read group. -/
def resolveGroupPair (t : Taxonomy) (values : List Nat) (total_kmers : Nat)
    (confidence_threshold : ℚ) (minimum_hit_groups : Nat) (value_mask : Nat) :
    Bool × Nat :=
  let cv := count_values values value_mask
  let call0 := resolve_tree cv.1 t total_kmers confidence_threshold
  let call := if 0 < call0 ∧ cv.2 < minimum_hit_groups then 0 else call0
  (decide (0 < call), t.extOf call)

/-- The partitioned path for a single read: split its minimizers into
slot records, annotate them against the CHT, group by the low 32 payload
bits, and resolve the group with the split map's kmer count. -/
def partitionedCallPair (t : Taxonomy) (c : CHTableM) (hashes : List Nat)
    (seq_id : Nat) (confidence_threshold : ℚ) (minimum_hit_groups : Nat) :
    Bool × Nat :=
  let pr := process_record c hashes seq_id
  let items := annotateSlots c pr.2
  resolveGroupPair t (groupOf items (seq_id % 2 ^ 32)) pr.1
    confidence_threshold minimum_hit_groups c.value_mask

theorem payload_high (c : CHTableM) (h sid : Nat) :
    (slotU64 c h sid).payload / 2 ^ 32 / 2 ^ c.value_bits =
      fingerprint c.value_bits h := by
  show ((fingerprint c.value_bits h * 2 ^ c.value_bits) * 2 ^ 32 + sid % 2 ^ 32) /
      2 ^ 32 / 2 ^ c.value_bits = _
  have h32 : (0 : Nat) < 2 ^ 32 := pow_pos (by norm_num) 32
  have hvb : (0 : Nat) < 2 ^ c.value_bits := pow_pos (by norm_num) _
  have hlt : sid % 2 ^ 32 < 2 ^ 32 := Nat.mod_lt _ h32
  rw [mul_comm (fingerprint c.value_bits h * 2 ^ c.value_bits) (2 ^ 32),
    Nat.mul_add_div h32, Nat.div_eq_of_lt hlt, Nat.add_zero,
    Nat.mul_div_cancel _ hvb]

theorem payload_low (c : CHTableM) (h sid : Nat) :
    (slotU64 c h sid).payload % 2 ^ 32 = sid % 2 ^ 32 := by
  show ((fingerprint c.value_bits h * 2 ^ c.value_bits) * 2 ^ 32 + sid % 2 ^ 32) %
      2 ^ 32 = _
  have h32 : (0 : Nat) < 2 ^ 32 := pow_pos (by norm_num) 32
  have hlt : sid % 2 ^ 32 < 2 ^ 32 := Nat.mod_lt _ h32
  rw [mul_comm (fingerprint c.value_bits h * 2 ^ c.value_bits) (2 ^ 32),
    Nat.mul_add_mod, Nat.mod_eq_of_lt hlt]

theorem annotateSlot_process_eq (c : CHTableM) (h sid : Nat) :
    annotateSlot c ((slotU64 c h sid).idx / c.hash_size,
        ⟨(slotU64 c h sid).idx % c.hash_size, (slotU64 c h sid).payload⟩) =
      (c.probe h).map (fun cell => cell * 2 ^ 32 + sid % 2 ^ 32) := by
  unfold annotateSlot CHTableM.probe
  simp only [payload_high, payload_low]
  rfl

theorem annotateSlots_process (c : CHTableM) (sid : Nat) (hs : List Nat) :
    annotateSlots c (process_record c hs sid).2 =
      hs.filterMap (fun h => (c.probe h).map (fun cell => cell * 2 ^ 32 + sid % 2 ^ 32)) := by
  unfold annotateSlots process_record
  induction hs with
  | nil => rfl
  | cons h rest ih =>
    simp only [List.map_cons, List.filterMap_cons] at ih ⊢
    rw [annotateSlot_process_eq]
    cases hp : c.probe h with
    | none => simpa [hp] using ih
    | some cell => simpa [hp] using ih

theorem groupOf_annotated (c : CHTableM) (sid : Nat) (hs : List Nat) :
    groupOf (hs.filterMap
        (fun h => (c.probe h).map (fun cell => cell * 2 ^ 32 + sid % 2 ^ 32)))
      (sid % 2 ^ 32) = hs.filterMap (fun h => c.probe h) := by
  have h32 : (0 : Nat) < 2 ^ 32 := pow_pos (by norm_num) 32
  have hlt : sid % 2 ^ 32 < 2 ^ 32 := Nat.mod_lt _ h32
  induction hs with
  | nil => rfl
  | cons h rest ih =>
    simp only [List.filterMap_cons]
    cases hp : c.probe h with
    | none => simpa [hp] using ih
    | some cell =>
      have hmod : (cell * 2 ^ 32 + sid % 2 ^ 32) % 2 ^ 32 = sid % 2 ^ 32 := by
        rw [mul_comm cell (2 ^ 32), Nat.mul_add_mod, Nat.mod_eq_of_lt hlt]
      have hdiv : (cell * 2 ^ 32 + sid % 2 ^ 32) / 2 ^ 32 = cell := by
        rw [mul_comm, Nat.mul_add_div h32, Nat.div_eq_of_lt hlt, Nat.add_zero]
      simp only [hp, Option.map_some']
      simp only [groupOf, List.filter_cons, hmod, beq_self_eq_true, if_true,
        List.map_cons, hdiv] at ih ⊢
      rw [ih]

theorem count_values_fold (mask : Nat) :
    ∀ (vec : List Nat) (m : List (Nat × Nat)) (u : List Nat),
      (vec.foldl (fun (acc : List (Nat × Nat) × List Nat) v =>
        (entryIncr acc.1 (v % (mask + 1)),
         if v ∈ acc.2 then acc.2 else acc.2 ++ [v])) (m, u)).1 =
        vec.foldl (fun m v => entryIncr m (v % (mask + 1))) m := by
  intro vec
  induction vec with
  | nil => intro m u; rfl
  | cons v rest ih =>
    intro m u
    rw [List.foldl_cons, List.foldl_cons]
    exact ih _ _

theorem count_values_fst (vec : List Nat) (mask : Nat) :
    (count_values vec mask).1 =
      vec.foldl (fun m v => entryIncr m (v % (mask + 1))) [] :=
  count_values_fold mask vec [] []

theorem foldl_counts_proj (c : CHTableM) (mc : Nat) :
    ∀ (hs : List Nat) (st : ClassifyState),
      (hs.foldl (classifyStep c mc) st).hit_counts =
        hs.foldl (fun m h =>
          if 0 < taxonFor c mc h then entryIncr m (taxonFor c mc h) else m)
          st.hit_counts := by
  intro hs
  induction hs with
  | nil => intro st; rfl
  | cons h rest ih =>
    intro st
    rw [List.foldl_cons, List.foldl_cons, ih, classifyStep_counts]

theorem classifyLoop_counts (c : CHTableM) (mc : Nat) (mates : List (List Nat)) :
    (classifyLoop c mc mates).hit_counts =
      mates.flatten.foldl (fun m h =>
        if 0 < taxonFor c mc h then entryIncr m (taxonFor c mc h) else m) [] := by
  rw [classifyLoop_eq_join, foldl_counts_proj]

theorem classifyLoop_total (c : CHTableM) (mc : Nat) (mates : List (List Nat)) :
    (classifyLoop c mc mates).total_kmers = mates.flatten.length := by
  rw [classifyLoop_eq_join, foldl_step_total]
  simp

theorem cellAt_mem (c : CHTableM) (i : Nat) (h : c.cellAt i ≠ 0) :
    c.cellAt i ∈ c.table := by
  unfold CHTableM.cellAt at *
  by_cases hi : i < c.table.length
  · rw [List.getD_eq_getElem _ _ hi]
    exact List.getElem_mem _
  · rw [List.getD_eq_default] at h
    · exact absurd rfl h
    · omega

theorem probeFuel_some_spec (c : CHTableM) (p fp : Nat) :
    ∀ (fuel idx cell : Nat), probeFuel c p fp fuel idx = some cell →
      cell ≠ 0 ∧ cell ∈ c.table := by
  intro fuel
  induction fuel with
  | zero =>
    intro idx cell h
    exact absurd h (by simp [probeFuel])
  | succ f ih =>
    intro idx cell h
    simp only [probeFuel] at h
    by_cases h0 : c.cellAt (p * c.hash_size + idx) = 0
    · rw [if_pos h0] at h
      exact absurd h (by simp)
    · rw [if_neg h0] at h
      by_cases hfp : c.cellAt (p * c.hash_size + idx) / 2 ^ c.value_bits = fp
      · rw [if_pos hfp] at h
        have hc : c.cellAt (p * c.hash_size + idx) = cell := Option.some.inj h
        rw [← hc]
        exact ⟨h0, cellAt_mem c _ h0⟩
      · rw [if_neg hfp] at h
        exact ih _ _ h

theorem probe_some_spec (c : CHTableM) (hash cell : Nat)
    (h : c.probe hash = some cell) : cell ≠ 0 ∧ cell ∈ c.table := by
  unfold CHTableM.probe at h
  exact probeFuel_some_spec c _ _ _ _ cell h

theorem get_of_probe_some (c : CHTableM) (hash cell : Nat)
    (h : c.probe hash = some cell) : c.get hash = cell % 2 ^ c.value_bits := by
  unfold CHTableM.get
  rw [h]

theorem get_of_probe_none (c : CHTableM) (hash : Nat)
    (h : c.probe hash = none) : c.get hash = 0 := by
  unfold CHTableM.get
  rw [h]

theorem value_mask_succ (c : CHTableM) : c.value_mask + 1 = 2 ^ c.value_bits := by
  unfold CHTableM.value_mask
  have : (0 : Nat) < 2 ^ c.value_bits := pow_pos (by norm_num) _
  omega

theorem counts_bridge (c : CHTableM)
    (hcells : ∀ v ∈ c.table, v ≠ 0 → v % 2 ^ c.value_bits ≠ 0) :
    ∀ (hs : List Nat) (m : List (Nat × Nat)),
      hs.foldl (fun m h =>
          if 0 < taxonFor c 0 h then entryIncr m (taxonFor c 0 h) else m) m =
        (hs.filterMap (fun h => c.probe h)).foldl
          (fun m v => entryIncr m (v % (c.value_mask + 1))) m := by
  simp only [value_mask_succ]
  intro hs
  induction hs with
  | nil => intro m; rfl
  | cons h rest ih =>
    intro m
    rw [List.foldl_cons, List.filterMap_cons]
    cases hp : c.probe h with
    | none =>
      have ht : taxonFor c 0 h = 0 := by
        unfold taxonFor
        rw [if_pos (Nat.zero_le h), get_of_probe_none c h hp]
      rw [ht, if_neg (by omega)]
      exact ih m
    | some cell =>
      have hcell := probe_some_spec c h cell hp
      have htax : taxonFor c 0 h = cell % 2 ^ c.value_bits := by
        unfold taxonFor
        rw [if_pos (Nat.zero_le h), get_of_probe_some c h cell hp]
      have hpos : 0 < cell % 2 ^ c.value_bits :=
        Nat.pos_of_ne_zero (hcells cell hcell.2 hcell.1)
      rw [htax, if_pos hpos, List.foldl_cons]
      exact ih _

/-- Claim C1 (amended): for a read with sub-sampling disabled
(`min_clear_hash_value = None`), over a CHT whose occupied cells carry a
positive taxid, the in-memory classifier and the partitioned resolver
recover the same per-taxid hit counts (in the same order) and the same
total k-mer count, hence the same `resolve_tree` call; the final C/U flag
and external taxid agree whenever the two hit-group statistics — the
in-memory run count and the partitioned distinct-value count — fall on
the same side of `minimum_hit_groups`. -/
theorem C1_resolution_paths_amended (t : Taxonomy) (c : CHTableM)
    (dna_id : List Char) (mates : List (List Nat)) (seq_id : Nat) (meros : Meros)
    (conf : ℚ) (mhg : Nat)
    (hmc : meros.min_clear_hash_value = none)
    (hcells : ∀ v ∈ c.table, v ≠ 0 → v % 2 ^ c.value_bits ≠ 0)
    (hgroups : (classifyLoop c 0 mates).minimizer_hit_groups < mhg ↔
      (count_values
        (groupOf (annotateSlots c (process_record c mates.flatten seq_id).2)
          (seq_id % 2 ^ 32)) c.value_mask).2 < mhg) :
    classifyCallPair t c ⟨dna_id, mates⟩ meros conf (mhg : Int) =
      partitionedCallPair t c mates.flatten seq_id conf mhg := by
  have hvals : groupOf (annotateSlots c (process_record c mates.flatten seq_id).2)
      (seq_id % 2 ^ 32) = mates.flatten.filterMap (fun h => c.probe h) := by
    rw [annotateSlots_process, groupOf_annotated]
  have hcounts : (classifyLoop c 0 mates).hit_counts =
      (count_values (mates.flatten.filterMap (fun h => c.probe h)) c.value_mask).1 := by
    rw [classifyLoop_counts, count_values_fst, counts_bridge c hcells]
  unfold classifyCallPair classifyFinalCall partitionedCallPair resolveGroupPair
  rw [hmc]
  simp only [Option.getD_none, hvals, process_record_fst]
  rw [← hcounts, classifyLoop_total]
  have hcast : (((classifyLoop c 0 mates).minimizer_hit_groups : Int) < (mhg : Int)) ↔
      (classifyLoop c 0 mates).minimizer_hit_groups < mhg := Int.ofNat_lt
  rw [hvals] at hgroups
  have hcond : (0 < resolve_tree (classifyLoop c 0 mates).hit_counts t
        mates.flatten.length conf ∧
      ((classifyLoop c 0 mates).minimizer_hit_groups : Int) < (mhg : Int)) ↔
      (0 < resolve_tree (classifyLoop c 0 mates).hit_counts t
        mates.flatten.length conf ∧
      (count_values (mates.flatten.filterMap (fun h => c.probe h)) c.value_mask).2 <
        mhg) :=
    and_congr Iff.rfl (hcast.trans hgroups)
  rw [if_congr hcond rfl rfl]

/-- Claim C1 as stated is false: on the read with minimizer hashes
`[hA, hB, hA]` (a non-adjacent repeat, both hits taxid 5) and
`minimum_hit_groups = 3`, the in-memory classifier counts 3 hit groups
and prints `C` with external taxid 500, while the partitioned resolver
counts 2 distinct values and prints `U` with taxid 0. -/
theorem C1_counterexample :
    classifyCallPair taxC1 chtC1 ⟨['r'], [[hA, hB, hA]]⟩ merosNone 0 3 =
        (true, 500) ∧
      partitionedCallPair taxC1 chtC1 [hA, hB, hA] 7 0 3 = (false, 0) ∧
      ((true, 500) : Bool × Nat) ≠ (false, 0) := by
  refine ⟨?_, ?_, by decide⟩
  · simp only [classifyCallPair, classifyFinalCall, resolve_tree, requiredScore_zero]
    decide
  · simp only [partitionedCallPair, resolveGroupPair, resolve_tree, requiredScore_zero]
    decide

/-- Witness instantiating the amended C1 theorem at a concrete read whose
two hit-group statistics agree. -/
theorem C1_amended_witness :
    merosNone.min_clear_hash_value = none ∧
      classifyCallPair taxC1 chtC1 ⟨['r'], [[hA], [hB]]⟩ merosNone 0 1 =
        partitionedCallPair taxC1 chtC1 ([[hA], [hB]] : List (List Nat)).flatten 7 0 1 := by
  refine ⟨rfl, C1_resolution_paths_amended taxC1 chtC1 ['r'] [[hA], [hB]] 7 merosNone
    0 1 rfl (by decide) ?_⟩
  decide

end Kr2r
